import Mathlib

/-!
Verification of the WIFF chunked waveform container.

A shallow embedding, in Lean, of the core byte-level operations of the WIFF
(Waveform Interchange File Format) library: the 24-byte chunk header protocol
(`structs.py`, `wiffchunk.py`), the page-granular chunk resize/relocation
algorithm (`WIFF_chunk.ResizeChunk`), the 256-bit channel-presence bitfield
(`bits.py`), the per-channel storage-width computation (`wiffwave.py`), frame
and annotation appends with their file-table bookkeeping (`wiffwave.py`,
`wiffanno.py`, `wiffinfo.py`), frame lookup (`wiff.py`), and the chunk
dispatch performed by `WIFF.open`.

Machine integers are modelled as `Nat` (all the quantities involved are
unsigned); byte strings are `List Nat` with entries below 256; Python
exceptions are an explicit error type threaded through `Except`.
-/

/-- The Python exceptions raised by the embedded code paths. `nameError` is
the error produced when a line references a name that is not defined in the
enclosing module's scope (several modules of the split-out package reference
names they never import). -/
inductive PyErr where
  | valueError
  | keyError
  | typeError
  | nameError
  | indexError
  | structError
  | unicodeEncodeError
  | notImplError
  | needResize
  deriving DecidableEq, Repr

/-! ## Little-endian byte strings

`struct.pack`/`struct.unpack` with the `<Q`/`<I` formats, and the `member_8I`
/ `member_4I` fields of `bstruct`, store unsigned integers as little-endian
byte strings.  `toLEBytes w n` is the `w`-byte little-endian encoding of `n`
(truncating above `2^(8*w)` exactly as the hardware field does), and
`fromLEBytes` is the corresponding read. -/

/-- Little-endian encoding of `n` into `w` bytes (least significant first). -/
def toLEBytes : Nat → Nat → List Nat
  | 0, _ => []
  | w + 1, n => n % 256 :: toLEBytes w (n / 256)

/-- Little-endian read of a byte string (least significant byte first). -/
def fromLEBytes : List Nat → Nat
  | [] => 0
  | b :: bs => b + 256 * fromLEBytes bs

theorem toLEBytes_length (w n : Nat) : (toLEBytes w n).length = w := by
  induction w generalizing n with
  | zero => rfl
  | succ w ih => simp [toLEBytes, ih]

theorem fromLEBytes_toLEBytes (w n : Nat) :
    fromLEBytes (toLEBytes w n) = n % 2 ^ (8 * w) := by
  induction w generalizing n with
  | zero => simp [toLEBytes, fromLEBytes, Nat.mod_one]
  | succ w ih =>
      have h2 : (2 : Nat) ^ (8 * (w + 1)) = 256 * 2 ^ (8 * w) := by
        rw [Nat.mul_succ, pow_add]
        ring
      rw [toLEBytes, fromLEBytes, ih, h2, Nat.mod_mul]

theorem fromLEBytes_toLEBytes_of_lt {w n : Nat} (h : n < 2 ^ (8 * w)) :
    fromLEBytes (toLEBytes w n) = n := by
  rw [fromLEBytes_toLEBytes, Nat.mod_eq_of_lt h]

theorem toLEBytes_fromLEBytes {l : List Nat} (hb : ∀ b ∈ l, b < 256) :
    toLEBytes l.length (fromLEBytes l) = l := by
  induction l with
  | nil => rfl
  | cons b bs ih =>
      have hblt : b < 256 := hb b (List.mem_cons_self ..)
      have hmod : (b + 256 * fromLEBytes bs) % 256 = b := by
        rw [Nat.add_mul_mod_self_left, Nat.mod_eq_of_lt hblt]
      have hdiv : (b + 256 * fromLEBytes bs) / 256 = fromLEBytes bs := by
        rw [Nat.add_mul_div_left _ _ (by norm_num : (0:Nat) < 256),
          Nat.div_eq_of_lt hblt, Nat.zero_add]
      simp only [List.length_cons, toLEBytes, fromLEBytes, hmod, hdiv]
      rw [ih (fun x hx => hb x (List.mem_cons_of_mem _ hx))]

/-! ## The 24-byte chunk header (C2)

`chunk_struct` (structs.py lines 21-41) lays a header out as `magic` at
offsets 0-8 (`member_str(0, 8)`, the raw ASCII bytes of the tag), `size` at
offsets 8-16 (`member_8I(8)`, little-endian u64) and `attributes` at offsets
16-24 (`member_8I(16)`).  `WIFF_chunk.attributes` (wiffchunk.py lines 36-41)
presents that u64 as 8 bytes via `struct.pack("<Q", ...)` /
`struct.unpack("<BBBBBBBB", ...)`, so the stored bytes are the attribute
bytes themselves; the setter computes
`struct.unpack("<Q", struct.pack("<BBBBBBBB", *v))[0]`, i.e.
`fromLEBytes v`, and `member_8I` writes that value little-endian. -/

/-- Serialize a `(tag, size, attrs)` triple into the 24-byte header layout:
the 8 tag bytes, the little-endian u64 size, then the attribute u64 produced
by `WIFF_chunk.attributes`'s setter, written little-endian. -/
def serializeChunkHeader (tag : List Nat) (size : Nat) (attrs : List Nat) : List Nat :=
  tag ++ toLEBytes 8 size ++ toLEBytes 8 (fromLEBytes attrs)

/-- Parse one chunk header from a byte string the way
`WIFF_chunk.FindChunks` (wiffchunk.py lines 50-74) reads it: 8 tag bytes,
a `<Q` size (rejecting a zero size with `ValueError`), then the 8 attribute
bytes via `<BBBBBBBB` (the identity on the byte string). -/
def parseChunkHeader (bs : List Nat) : Except PyErr (List Nat × Nat × List Nat) :=
  let magic := bs.take 8
  let sz := fromLEBytes ((bs.drop 8).take 8)
  if sz = 0 then
    .error .valueError
  else
    .ok (magic, sz, (bs.drop 16).take 8)

/-- C2: for every valid chunk header triple — an 8-byte ASCII tag, a nonzero
size below `2^64` and 8 attribute bytes — serializing into the 24-byte layout
and parsing back as chunk discovery does returns the same triple. -/
theorem chunk_header_roundtrip (tag : List Nat) (size : Nat) (attrs : List Nat)
    (htag : tag.length = 8) (hascii : ∀ b ∈ tag, b < 128)
    (hattrs : attrs.length = 8) (hbytes : ∀ b ∈ attrs, b < 256)
    (hsz : size < 2 ^ 64) (hnz : size ≠ 0) :
    parseChunkHeader (serializeChunkHeader tag size attrs) = .ok (tag, size, attrs) := by
  have hattrs' : toLEBytes 8 (fromLEBytes attrs) = attrs := by
    have := toLEBytes_fromLEBytes hbytes
    rwa [hattrs] at this
  have hlen : (toLEBytes 8 size).length = 8 := toLEBytes_length 8 size
  have hsz' : fromLEBytes (toLEBytes 8 size) = size :=
    fromLEBytes_toLEBytes_of_lt (by simpa using hsz)
  unfold parseChunkHeader serializeChunkHeader
  have h16 : (tag ++ toLEBytes 8 size).length = 16 := by
    simp [htag, hlen]
  have hdrop8 : ((tag ++ toLEBytes 8 size) ++ attrs).drop 8 = toLEBytes 8 size ++ attrs := by
    rw [List.append_assoc, List.drop_left' htag]
  have htake8 : ((tag ++ toLEBytes 8 size) ++ attrs).take 8 = tag := by
    rw [List.append_assoc, List.take_left' htag]
  have hmid : ((toLEBytes 8 size) ++ attrs).take 8 = toLEBytes 8 size :=
    List.take_left' hlen
  have hdrop16 : ((tag ++ toLEBytes 8 size) ++ attrs).drop 16 = attrs :=
    List.drop_left' h16
  rw [hattrs']
  simp only [htake8, hdrop8, hmid, hdrop16, hsz']
  rw [List.take_of_length_le (by omega)]
  simp [hnz]

/-- Witness for C2 at the `WIFFINFO` tag, size 4096, attribute bytes
`(1,0,0,0,0,0,0,0)` (the values written by `WIFFINFO.initchunk`). -/
theorem chunk_header_roundtrip_witness :
    parseChunkHeader (serializeChunkHeader [87, 73, 70, 70, 73, 78, 70, 79] 4096
        [1, 0, 0, 0, 0, 0, 0, 0]) =
      .ok ([87, 73, 70, 70, 73, 78, 70, 79], 4096, [1, 0, 0, 0, 0, 0, 0, 0]) :=
  chunk_header_roundtrip _ _ _ (by decide) (by decide) (by decide) (by decide)
    (by norm_num) (by decide)

/-! ## Channel storage width (C3)

`WIFFWAVE.setup` (wiffwave.py lines 39-41) computes each channel's storage
size as `c.bit.val + (c.bit.val % 8)` bits and divides by 8 to get bytes;
the same `bit + bit % 8` expression is used by `WIFFWAVE.initheader` (lines
139-142), `channel_sizes` (line 227) and `add_frames` (line 327).  The spec
says the width is `ceil(bit_depth/8)` bytes. -/

/-- Per-channel storage width in bytes as the code computes it:
`(bit + bit % 8) // 8` (wiffwave.py lines 39-40). -/
def chanWidthBytes (bit : Nat) : Nat :=
  (bit + bit % 8) / 8

/-- Per-channel storage width in bytes as the spec states it:
`ceil(bit_depth / 8)`. -/
def specWidthBytes (bit : Nat) : Nat :=
  (bit + 7) / 8

/-- Frame stride as `WIFFWAVE.setup` computes it: the sum of the per-channel
byte widths (wiffwave.py line 41). -/
def frameSizeSetup (bits : List Nat) : Nat :=
  (bits.map chanWidthBytes).sum

/-- Frame size as the `frame_size` property and `initheader` compute it: the
bit-expanded channel sizes are summed first and then divided by 8
(wiffwave.py lines 142, 236). -/
def frameSizeHeader (bits : List Nat) : Nat :=
  (bits.map (fun b => b + b % 8)).sum / 8

/-- C3 (code bug): the code's storage width `(b + b%8)//8` disagrees with the
spec's `ceil(b/8)` whenever `b % 8 ∈ {1,2,3}`: a 9-bit channel gets 1 byte
instead of 2, and a 1-bit channel gets 0 bytes; consequently the frame
stride for a single 9-bit channel is 1, not 2.  (For `b % 8 ∈ {0,4,5,6,7}`,
e.g. the 12-bit channels of the examples, the two formulas agree.) -/
theorem chanWidthBytes_ne_spec :
    chanWidthBytes 9 = 1 ∧ specWidthBytes 9 = 2 ∧ chanWidthBytes 9 ≠ specWidthBytes 9 ∧
      chanWidthBytes 1 = 0 ∧ specWidthBytes 1 = 1 ∧
      frameSizeSetup [9] = 1 ∧ frameSizeHeader [9] = 1 ∧
      chanWidthBytes 12 = specWidthBytes 12 := by
  decide

/-! ## The channel-presence bitfield (C7)

`bits.py` keeps a bit list (index 0 least significant within each byte) and
converts to/from byte strings.  `bitstobytes` folds a (≤ 8)-element bit list
into a byte value; `bytestobits` explodes each byte into its 8 binary digits
least-significant first; `to_bytes` first forces each stored bit to 0/1,
groups the list into 8-bit chunks and packs the chunk values with
`struct.pack("<B"*n, ...)` — but `bits.py` imports only `functools` and
`operator`, so the `struct.pack` call on line 79 raises `NameError` on every
invocation.  The definitions below embed the conversion logic; `to_bytes_run`
embeds what the method actually does at runtime. -/

/-- Embeds `bitfield.bitstobytes` (bits.py lines 82-93): fold the bit list, index 0
least significant, into a single byte value. -/
def bitstobytes (bits : List Nat) : Nat :=
  bits.foldr (fun b acc => acc * 2 + b) 0

/-- The `n` least-significant binary digits of `v`, least significant first.
This is what `bin(v)[2:].zfill(8)` + reverse computes for one byte in
`bitfield.bytestobits` (bits.py lines 95-110), for `v < 2^n`. -/
def bitsOfByte : Nat → Nat → List Nat
  | 0, _ => []
  | n + 1, v => v % 2 :: bitsOfByte n (v / 2)

/-- Embeds `bitfield.bytestobits`: concatenate the 8 binary digits of every byte,
least significant digit first within each byte. -/
def bytestobits (bs : List Nat) : List Nat :=
  (bs.map (bitsOfByte 8)).flatten

/-- Split a bit list into consecutive 8-element chunks (the
`for i in range(0, len(self._bits), 8)` loop of `to_bytes`).  Implemented
with the list length as structural fuel so that it computes by `rfl`. -/
def chunks8 (l : List Nat) : List (List Nat) :=
  go l.length l
where
  /-- Fuel-indexed worker: one chunk per iteration, at most `fuel` chunks. -/
  go : Nat → List Nat → List (List Nat)
    | 0, _ => []
    | _ + 1, [] => []
    | fuel + 1, x :: xs => ((x :: xs).take 8) :: go fuel ((x :: xs).drop 8)

/-- The byte string `bitfield.to_bytes` builds before packing (bits.py lines
70-79): force every stored bit to 0 or 1, then turn each 8-bit chunk into a
byte value.  `struct.pack("<B"*n, *ret)` on these values is the identity on
the byte list. -/
def to_bytes_pure (bits : List Nat) : List Nat :=
  (chunks8 (bits.map (fun b => if b ≠ 0 then 1 else 0))).map bitstobytes

/-- What `bitfield.to_bytes` actually does at runtime: the final
`struct.pack` call references `struct`, which `bits.py` never imports, so
every call raises `NameError` (bits.py line 79). -/
def to_bytes_run (bits : List Nat) : Except PyErr (List Nat) :=
  let _ret := to_bytes_pure bits
  .error .nameError

/-- Embeds `bitfield.set_indices` (bits.py lines 51-55): the indices of the nonzero
bits. -/
def set_indices (l : List Nat) : List Nat :=
  (List.range l.length).filter (fun i => l.getD i 0 ≠ 0)

/-- Embeds `bitfield.set`/`__setitem__` (bits.py lines 15-42) on a fresh bitfield
after `clear(255)`: a 256-bit list whose nonzero positions are exactly the
given index set (this is how `WIFFWAVE.initheader` builds the presence
vector, wiffwave.py lines 128-132). -/
def mkPresenceBits (idxs : List Nat) : List Nat :=
  (List.range 256).map (fun i => if i ∈ idxs then 1 else 0)


theorem bitsOfByte_zero (n : Nat) : bitsOfByte n 0 = List.replicate n 0 := by
  induction n with
  | zero => rfl
  | succ n ih => simp [bitsOfByte, ih, List.replicate_succ]

theorem bitsOfByte_bitstobytes {c : List Nat} {n : Nat}
    (hb : ∀ b ∈ c, b ≤ 1) (hn : c.length ≤ n) :
    bitsOfByte n (bitstobytes c) = c ++ List.replicate (n - c.length) 0 := by
  induction c generalizing n with
  | nil =>
      simp only [List.nil_append, List.length_nil, Nat.sub_zero]
      exact bitsOfByte_zero n
  | cons b t ih =>
      match n, hn with
      | m + 1, hn =>
        have hb1 : b ≤ 1 := hb b (List.mem_cons_self ..)
        have hbt : bitstobytes (b :: t) = b + 2 * bitstobytes t := by
          simp only [bitstobytes, List.foldr_cons]
          ring
        have hmod : (b + 2 * bitstobytes t) % 2 = b := by
          rw [Nat.add_mul_mod_self_left, Nat.mod_eq_of_lt (by omega)]
        have hdiv : (b + 2 * bitstobytes t) / 2 = bitstobytes t := by
          rw [Nat.add_mul_div_left _ _ (by norm_num : (0:Nat) < 2),
            Nat.div_eq_of_lt (by omega), Nat.zero_add]
        rw [hbt, bitsOfByte, hmod, hdiv,
          ih (fun x hx => hb x (List.mem_cons_of_mem _ hx)) (by simpa using hn)]
        simp [Nat.succ_sub_succ]

theorem bytestobits_chunks8_go {l : List Nat} {fuel : Nat}
    (hb : ∀ b ∈ l, b ≤ 1) (hfuel : l.length ≤ fuel) :
    ∃ k, bytestobits ((chunks8.go fuel l).map bitstobytes) = l ++ List.replicate k 0 := by
  induction fuel generalizing l with
  | zero =>
      have : l = [] := List.eq_nil_of_length_eq_zero (by omega)
      exact ⟨0, by simp [this, chunks8.go, bytestobits]⟩
  | succ fuel ih =>
      match l with
      | [] => exact ⟨0, by simp [chunks8.go, bytestobits]⟩
      | x :: xs =>
          have htk : ∀ b ∈ (x :: xs).take 8, b ≤ 1 :=
            fun b hbm => hb b (List.mem_of_mem_take hbm)
          have hdr : ∀ b ∈ (x :: xs).drop 8, b ≤ 1 :=
            fun b hbm => hb b (List.mem_of_mem_drop hbm)
          have hlen : ((x :: xs).drop 8).length ≤ fuel := by
            simp only [List.length_drop, List.length_cons] at *
            omega
          obtain ⟨k, hk⟩ := ih hdr hlen
          have hstep : bytestobits ((chunks8.go (fuel + 1) (x :: xs)).map bitstobytes) =
              bitsOfByte 8 (bitstobytes ((x :: xs).take 8)) ++
                bytestobits ((chunks8.go fuel ((x :: xs).drop 8)).map bitstobytes) := by
            simp [chunks8.go, bytestobits]
          have htklen : ((x :: xs).take 8).length ≤ 8 := by
            simp
          rw [hstep, bitsOfByte_bitstobytes htk htklen, hk]
          rcases le_or_lt ((x :: xs).length) 8 with hle | hlt
          · refine ⟨(8 - ((x :: xs).take 8).length) + k, ?_⟩
            have hd : (x :: xs).drop 8 = [] := List.drop_eq_nil_of_le hle
            have ht : (x :: xs).take 8 = x :: xs := List.take_of_length_le hle
            rw [hd, List.nil_append, ht, List.append_assoc, ← List.replicate_add]
          · refine ⟨k, ?_⟩
            have ht8 : ((x :: xs).take 8).length = 8 := by
              rw [List.length_take]
              omega
            rw [ht8]
            simp only [Nat.sub_self, List.replicate_zero, List.append_nil]
            rw [← List.append_assoc, List.take_append_drop]

theorem bytestobits_to_bytes_pure (bits : List Nat) :
    ∃ k, bytestobits (to_bytes_pure bits) =
      (bits.map (fun b => if b ≠ 0 then 1 else 0)) ++ List.replicate k 0 := by
  refine bytestobits_chunks8_go ?_ (by simp [chunks8])
  intro b hbm
  obtain ⟨a, _, ha⟩ := List.mem_map.mp hbm
  split at ha <;> omega

theorem set_indices_append_replicate_zero (l : List Nat) (k : Nat) :
    set_indices (l ++ List.replicate k 0) = set_indices l := by
  unfold set_indices
  rw [List.length_append, List.length_replicate, List.range_add, List.filter_append]
  have h1 : (List.range l.length).filter
        (fun i => decide ((l ++ List.replicate k 0).getD i 0 ≠ 0)) =
      (List.range l.length).filter (fun i => decide (l.getD i 0 ≠ 0)) := by
    refine List.filter_congr fun i hi => ?_
    rw [List.mem_range] at hi
    rw [List.getD_eq_getElem?_getD, List.getD_eq_getElem?_getD,
      List.getElem?_append_left hi]
  have h2 : ((List.range k).map (l.length + ·)).filter
      (fun i => decide ((l ++ List.replicate k 0).getD i 0 ≠ 0)) = [] := by
    rw [List.filter_map, List.map_eq_nil_iff, List.filter_eq_nil_iff]
    intro i hi
    rw [List.mem_range] at hi
    simp only [Function.comp_apply, ne_eq, decide_not, Bool.not_eq_eq_eq_not,
      Bool.not_true, decide_eq_false_iff_not, Decidable.not_not]
    rw [List.getD_eq_getElem?_getD, List.getElem?_append_right (Nat.le_add_right _ _),
      Nat.add_sub_cancel_left]
    simp [List.getElem?_replicate, hi]
  rw [h1, h2, List.append_nil]

theorem set_indices_map_normalize (l : List Nat) :
    set_indices (l.map (fun b => if b ≠ 0 then 1 else 0)) = set_indices l := by
  unfold set_indices
  rw [List.length_map]
  refine List.filter_congr fun i hi => ?_
  rw [List.mem_range] at hi
  rw [List.getD_eq_getElem?_getD, List.getD_eq_getElem?_getD, List.getElem?_map]
  rw [(List.getElem?_eq_some_iff.mpr ⟨hi, rfl⟩ : l[i]? = some l[i])]
  simp only [Option.map_some, Option.getD_some]
  by_cases h : l[i] = 0 <;> simp [h]

/-- The bit-vector round-trip of the conversion logic: for every bit list,
serializing with the byte-building logic of `to_bytes` and re-parsing with
`bytestobits` preserves the set index set. -/
theorem bitfield_roundtrip_logic (bits : List Nat) :
    set_indices (bytestobits (to_bytes_pure bits)) = set_indices bits := by
  obtain ⟨k, hk⟩ := bytestobits_to_bytes_pure bits
  rw [hk, set_indices_append_replicate_zero, set_indices_map_normalize]

/-- C7 (code bug): the serialization logic round-trips — in particular for
the index set `{0, 1, 255}` of the 256-bit presence vector — but the actual
`to_bytes` method raises `NameError` on every call because `bits.py` never
imports `struct`, so the round-trip can never be executed. -/
theorem bitfield_roundtrip :
    set_indices (mkPresenceBits [0, 1, 255]) = [0, 1, 255] ∧
      set_indices (bytestobits (to_bytes_pure (mkPresenceBits [0, 1, 255]))) = [0, 1, 255] ∧
      (∀ bits : List Nat,
        set_indices (bytestobits (to_bytes_pure bits)) = set_indices bits) ∧
      to_bytes_run (mkPresenceBits [0, 1, 255]) = .error .nameError := by
  have hconc : set_indices (mkPresenceBits [0, 1, 255]) = [0, 1, 255] := by
    set_option maxRecDepth 4000 in decide
  refine ⟨hconc, ?_, fun bits => bitfield_roundtrip_logic bits, rfl⟩
  rw [bitfield_roundtrip_logic, hconc]

/-! ## Chunk resize and page relocation (C1)

`WIFF_chunk.ResizeChunk` (wiffchunk.py lines 78-133) grows a chunk in place.
The backing file is the mmap managed by `_filewrap` (util.py): a byte at
every absolute offset, modelled as a total function `Nat → Nat` together
with the current file size.  `_filewrap.__setitem__` (util.py lines 64-77)
raises `NeedResizeException` when a slice write ends beyond the current file
size, so every page write below carries that guard.  `_filewrap.resize_add`
extends the mmap; the new bytes read as zero. -/

/-- Slice write `fw[ofNew:ofNew+4096] = fw[ofOld:ofOld+4096]` (wiffchunk.py
line 122): the target page takes the source page's bytes, everything else is
unchanged.  The right-hand side is read before the write, which is exactly
what evaluating the old `mem` gives. -/
def copyPage (mem : Nat → Nat) (ofOld ofNew : Nat) : Nat → Nat :=
  fun a => if ofNew ≤ a ∧ a < ofNew + 4096 then mem (ofOld + (a - ofNew)) else mem a

/-- Slice write `fw[i*4096:(i+1)*4096] = b'\0'*4096` (wiffchunk.py line
130). -/
def zeroPage (mem : Nat → Nat) (i : Nat) : Nat → Nat :=
  fun a => if i * 4096 ≤ a ∧ a < (i + 1) * 4096 then 0 else mem a

/-- The page indices visited by `range(pg_total-1, pg_chk_end-1, -1)`:
`rangeDown lo n = [lo+n-1, lo+n-2, ..., lo]`. -/
def rangeDown (lo : Nat) : Nat → List Nat
  | 0 => []
  | n + 1 => (lo + n) :: rangeDown lo n

/-- The page indices visited by `range(lo, lo+n)` ascending. -/
def ascRange : Nat → Nat → List Nat
  | _, 0 => []
  | lo, n + 1 => lo :: ascRange (lo + 1) n

/-- The page-move loop of `ResizeChunk` (wiffchunk.py lines 116-122): for
each page index `i` in order, copy the page at `i*4096` forward by `delta`
bytes.  Each write is guarded by `_filewrap.__setitem__`'s bound check
against the (already grown) file size `sz`. -/
def moveLoop (sz delta : Nat) (mem : Nat → Nat) : List Nat → Except PyErr (Nat → Nat)
  | [] => .ok mem
  | i :: rest =>
      if i * 4096 + delta + 4096 > sz then
        .error .needResize
      else
        moveLoop sz delta (copyPage mem (i * 4096) (i * 4096 + delta)) rest

/-- The zero-fill loop of `ResizeChunk` (wiffchunk.py lines 127-130), with
the same write guard. -/
def zeroLoop (sz : Nat) (mem : Nat → Nat) : List Nat → Except PyErr (Nat → Nat)
  | [] => .ok mem
  | i :: rest =>
      if (i + 1) * 4096 > sz then
        .error .needResize
      else
        zeroLoop sz (zeroPage mem i) rest

/-- Embeds `_filewrap.resize_add` on the mmap: the file grows and the new region
reads as zero bytes. -/
def extendZero (mem : Nat → Nat) (fsize : Nat) : Nat → Nat :=
  fun a => if a < fsize then mem a else 0

/-- Exception propagation: an uncaught exception from a sub-step aborts the
whole operation, a normal result feeds the next step. -/
def exSeq {α β : Type} : Except PyErr α → (α → Except PyErr β) → Except PyErr β
  | .error e, _ => .error e
  | .ok m, f => f m

theorem exSeq_ok {α β : Type} (m : α) (f : α → Except PyErr β) :
    exSeq (.ok m) f = f m := rfl

/-- The growth path of `ResizeChunk` (wiffchunk.py lines 96-133): read the
file size, grow the file by `delta`, move the following pages in descending
order when this chunk is not the last one, then zero-fill the vacated pages.
`pg_chk_end = (offset + size) // 4096` and `pg_total = fsize // 4096`; the
moved pages are `range(pg_total - 1, pg_chk_end - 1, -1)` and the blanked
pages are `range(pg_chk_end, pg_chk_end + delta // 4096)`. -/
def resizeGrow (mem : Nat → Nat) (fsize offset size new_size : Nat) :
    Except PyErr ((Nat → Nat) × Nat × Nat) :=
  exSeq
    (if fsize > offset + size then
      moveLoop (fsize + (new_size - size)) (new_size - size) (extendZero mem fsize)
        (rangeDown ((offset + size) / 4096) (fsize / 4096 - (offset + size) / 4096))
    else
      .ok (extendZero mem fsize))
    fun mem1 =>
      exSeq
        (zeroLoop (fsize + (new_size - size)) mem1
          (ascRange ((offset + size) / 4096) ((new_size - size) / 4096)))
        fun mem2 => .ok (mem2, fsize + (new_size - size), new_size)

/-- Embeds `WIFF_chunk.ResizeChunk(chk, new_size)` (wiffchunk.py lines 78-133) over
a file of `fsize` bytes holding the chunk at `offset` with current `size`.
Returns the final memory, the new file size and the new chunk size.  The
shrink branch's `raise ValueError(... % (cur, val))` references the
undefined names `cur`/`val` and therefore actually raises `NameError`. -/
def ResizeChunk (mem : Nat → Nat) (fsize offset size new_size : Nat) :
    Except PyErr ((Nat → Nat) × Nat × Nat) :=
  if new_size % 4096 ≠ 0 then
    .error .valueError
  else if size = new_size then
    .ok (mem, fsize, size)
  else if size > new_size then
    .error .nameError
  else
    resizeGrow mem fsize offset size new_size

set_option maxRecDepth 10000 in
theorem moveLoop_eq (sz delta : Nat) (lo : Nat) :
    ∀ (n : Nat) (mem : Nat → Nat), (lo + n) * 4096 + delta ≤ sz →
      moveLoop sz delta mem (rangeDown lo n) =
        .ok (fun a =>
          if lo * 4096 + delta ≤ a ∧ a < (lo + n) * 4096 + delta then
            mem (a - delta)
          else
            mem a) := by
  intro n
  induction n with
  | zero =>
      intro mem _
      refine congrArg Except.ok (funext fun a => ?_)
      rw [if_neg (by omega)]
  | succ n ih =>
      intro mem hsz
      have hguard : ¬((lo + n) * 4096 + delta + 4096 > sz) := by
        have : (lo + (n + 1)) * 4096 = (lo + n) * 4096 + 4096 := by ring
        omega
      rw [rangeDown, moveLoop, if_neg hguard,
        ih (copyPage mem ((lo + n) * 4096) ((lo + n) * 4096 + delta)) (by nlinarith)]
      refine congrArg Except.ok (funext fun a => ?_)
      by_cases h1 : lo * 4096 + delta ≤ a ∧ a < (lo + n) * 4096 + delta
      · rw [if_pos h1, if_pos (by constructor <;> omega)]
        show copyPage mem _ _ (a - delta) = mem (a - delta)
        simp only [copyPage]
        rw [if_neg (by omega)]
      · by_cases h2 : (lo + n) * 4096 + delta ≤ a ∧ a < (lo + (n + 1)) * 4096 + delta
        · rw [if_neg h1, if_pos (by constructor <;> omega)]
          show copyPage mem _ _ a = mem (a - delta)
          simp only [copyPage]
          rw [if_pos (by constructor <;> omega)]
          congr 1
          omega
        · rw [if_neg h1, if_neg (by omega)]
          show copyPage mem _ _ a = mem a
          simp only [copyPage]
          rw [if_neg (by omega)]

theorem zeroLoop_eq (sz : Nat) :
    ∀ (n lo : Nat) (mem : Nat → Nat), (lo + n) * 4096 ≤ sz →
      zeroLoop sz mem (ascRange lo n) =
        .ok (fun a => if lo * 4096 ≤ a ∧ a < (lo + n) * 4096 then 0 else mem a) := by
  intro n
  induction n with
  | zero =>
      intro lo mem _
      refine congrArg Except.ok (funext fun a => ?_)
      rw [if_neg (by omega)]
  | succ n ih =>
      intro lo mem hsz
      have hstep : (lo + (n + 1)) * 4096 = (lo + 1 + n) * 4096 := by ring
      have hguard : ¬((lo + 1) * 4096 > sz) := by nlinarith
      rw [ascRange, zeroLoop, if_neg hguard, ih (lo + 1) (zeroPage mem lo) (by omega)]
      refine congrArg Except.ok (funext fun a => ?_)
      by_cases h1 : (lo + 1) * 4096 ≤ a ∧ a < (lo + 1 + n) * 4096
      · rw [if_pos h1, if_pos (by constructor <;> omega)]
      · by_cases h2 : lo * 4096 ≤ a ∧ a < (lo + 1) * 4096
        · rw [if_neg h1, if_pos (by constructor <;> omega)]
          show zeroPage mem lo a = 0
          simp only [zeroPage]
          rw [if_pos (by constructor <;> omega)]
        · rw [if_neg h1, if_neg (by omega)]
          show zeroPage mem lo a = mem a
          simp only [zeroPage]
          rw [if_neg (by omega)]

/-- C1: when the resized chunk is not the last chunk in the file,
`ResizeChunk` succeeds, every page after the chunk's old end is copied
forward by `delta = new_size - size` bytes (so each following byte reappears
at its old offset plus `delta`), and the chunk's own bytes are unchanged at
their original offsets. -/
theorem ResizeChunk_moves_following (mem : Nat → Nat) (fsize offset size new_size : Nat)
    (hoff : offset % 4096 = 0) (hsize : size % 4096 = 0) (hfs : fsize % 4096 = 0)
    (hns : new_size % 4096 = 0) (hgrow : size < new_size)
    (hnotlast : offset + size < fsize) :
    ∃ mem', ResizeChunk mem fsize offset size new_size =
        .ok (mem', fsize + (new_size - size), new_size) ∧
      (∀ a, offset ≤ a → a < offset + size → mem' a = mem a) ∧
      (∀ a, offset + size ≤ a → a < fsize → mem' (a + (new_size - size)) = mem a) := by
  have hE : (offset + size) / 4096 * 4096 = offset + size :=
    Nat.div_mul_cancel
      (Nat.dvd_add (Nat.dvd_of_mod_eq_zero hoff) (Nat.dvd_of_mod_eq_zero hsize))
  have hT : fsize / 4096 * 4096 = fsize := Nat.div_mul_cancel (Nat.dvd_of_mod_eq_zero hfs)
  have hd4 : (new_size - size) / 4096 * 4096 = new_size - size :=
    Nat.div_mul_cancel
      (Nat.dvd_sub' (Nat.dvd_of_mod_eq_zero hns) (Nat.dvd_of_mod_eq_zero hsize))
  have hTE : (offset + size) / 4096 ≤ fsize / 4096 :=
    Nat.div_le_div_right hnotlast.le
  have hb1 : ((offset + size) / 4096 + (fsize / 4096 - (offset + size) / 4096)) * 4096 +
      (new_size - size) ≤ fsize + (new_size - size) := by
    have h : (offset + size) / 4096 + (fsize / 4096 - (offset + size) / 4096) =
        fsize / 4096 := by omega
    rw [h, hT]
  have hb2 : ((offset + size) / 4096 + (new_size - size) / 4096) * 4096 ≤
      fsize + (new_size - size) := by
    rw [Nat.add_mul, hE, hd4]
    omega
  refine ⟨fun a =>
      if (offset + size) / 4096 * 4096 ≤ a ∧
          a < ((offset + size) / 4096 + (new_size - size) / 4096) * 4096 then 0
      else
        if (offset + size) / 4096 * 4096 + (new_size - size) ≤ a ∧
            a < ((offset + size) / 4096 + (fsize / 4096 - (offset + size) / 4096)) * 4096 +
              (new_size - size) then
          extendZero mem fsize (a - (new_size - size))
        else extendZero mem fsize a, ?hrun, ?hkeep, ?hfwd⟩
  case hrun =>
    unfold ResizeChunk
    rw [if_neg (by omega), if_neg (by omega), if_neg (by omega)]
    unfold resizeGrow
    rw [if_pos (by omega),
      moveLoop_eq (fsize + (new_size - size)) (new_size - size) ((offset + size) / 4096)
        (fsize / 4096 - (offset + size) / 4096) (extendZero mem fsize) hb1]
    rw [exSeq_ok,
      zeroLoop_eq (fsize + (new_size - size)) ((new_size - size) / 4096)
        ((offset + size) / 4096) _ hb2]
    rw [exSeq_ok]
  case hkeep =>
    intro a ha1 ha2
    beta_reduce
    rw [if_neg (by omega), if_neg (by omega)]
    show extendZero mem fsize a = mem a
    unfold extendZero
    rw [if_pos (by omega)]
  case hfwd =>
    intro a ha1 ha2
    beta_reduce
    rw [if_neg (by omega), if_pos (by constructor <;> omega)]
    show extendZero mem fsize (a + (new_size - size) - (new_size - size)) = mem a
    rw [Nat.add_sub_cancel]
    unfold extendZero
    rw [if_pos (by omega)]

/-- Witness for C1: a file of two pages holding the chunk `[0, 4096)` grown
to 8192 bytes; the second chunk's pages move forward by one page and the
first chunk's bytes stay. -/
theorem ResizeChunk_moves_following_witness :
    (0 : Nat) % 4096 = 0 ∧ (4096 : Nat) % 4096 = 0 ∧ (8192 : Nat) % 4096 = 0 ∧
      (4096 : Nat) < 8192 ∧ 0 + 4096 < 8192 ∧
      (∃ mem', ResizeChunk (fun a => a / 4096 + 1) 8192 0 4096 8192 =
          .ok (mem', 8192 + (8192 - 4096), 8192) ∧
        (∀ a, 0 ≤ a → a < 0 + 4096 → mem' a = a / 4096 + 1) ∧
        (∀ a, 0 + 4096 ≤ a → a < 8192 → mem' (a + (8192 - 4096)) = a / 4096 + 1)) :=
  ⟨by norm_num, by norm_num, by norm_num, by norm_num, by norm_num,
    ResizeChunk_moves_following (fun a => a / 4096 + 1) 8192 0 4096 8192
      (by norm_num) (by norm_num) (by norm_num) (by norm_num) (by norm_num) (by norm_num)⟩

/-! ## Frame lookup across WaveBlocks (C5)

`WIFF.get_frame` (wiff.py lines 324-345) scans the WaveBlock chunks in
iteration order (it does not sort them), skipping a chunk when
`chunk.fidx_start > index` or `chunk.fidx_end < index` — i.e. it accepts a
chunk whose *closed* interval `[fidx_start, fidx_end]` contains the index —
and returns `chunk[index - fidx_start]`; after the loop it raises
`KeyError`. -/

/-- One WIFFWAVE chunk as `get_frame` sees it: its absolute frame bounds and
its record array indexed by local slot (`chunk[off]`, the `to_int=False`
byte form). -/
structure WaveBlock where
  fidx_start : Nat
  fidx_end : Nat
  records : Nat → List Nat

/-- Embeds `WIFF.get_frame` (wiff.py lines 324-345), `to_int=False`. -/
def get_frame : List WaveBlock → Nat → Except PyErr (List Nat)
  | [], _ => .error .keyError
  | c :: rest, index =>
      if c.fidx_start > index then
        get_frame rest index
      else if c.fidx_end < index then
        get_frame rest index
      else
        .ok (c.records (index - c.fidx_start))

/-- Written from the claim's words: return the frame of the WaveBlock whose
half-open range `[fidx_start, fidx_end)` contains the index, `KeyError` when
none does. -/
def get_frame_halfopen : List WaveBlock → Nat → Except PyErr (List Nat)
  | [], _ => .error .keyError
  | c :: rest, index =>
      if c.fidx_start ≤ index ∧ index < c.fidx_end then
        .ok (c.records (index - c.fidx_start))
      else
        get_frame_halfopen rest index

/-- The amended selection rule: the first block in chunk order whose
*closed* range `[fidx_start, fidx_end]` contains the index. -/
def get_frame_closed : List WaveBlock → Nat → Except PyErr (List Nat)
  | [], _ => .error .keyError
  | c :: rest, index =>
      if c.fidx_start ≤ index ∧ index ≤ c.fidx_end then
        .ok (c.records (index - c.fidx_start))
      else
        get_frame_closed rest index

/-- File A's WaveBlock: global frames `[0, 10)`, record `n` reads `[1, n]`. -/
def blockA : WaveBlock :=
  ⟨0, 10, fun n => [1, n]⟩

/-- File B's WaveBlock: global frames `[10, 20)`, record `n` reads `[2, n]`. -/
def blockB : WaveBlock :=
  ⟨10, 20, fun n => [2, n]⟩

/-- C5 counterexample: at the boundary index 10, the half-open rule picks
block B (frame `[2, 0]`), but the code's closed-interval scan returns block
A's out-of-range slot 10 (`[1, 10]`), so `get_frame` does not implement the
half-open rule. -/
theorem get_frame_boundary_cex :
    get_frame [blockA, blockB] 10 = .ok [1, 10] ∧
      get_frame_halfopen [blockA, blockB] 10 = .ok [2, 0] ∧
      get_frame [blockA, blockB] 10 ≠ get_frame_halfopen [blockA, blockB] 10 := by
  refine ⟨rfl, rfl, ?_⟩
  intro h
  simp [get_frame, get_frame_halfopen, blockA, blockB] at h

/-- C5 amended: `get_frame` returns the frame of the *first* WaveBlock in
chunk order whose closed range `[fidx_start, fidx_end]` contains the index
(decoded at local offset `index - fidx_start`), raising `KeyError` only when
no closed range does; in particular with file A holding `[0, 10)` and file B
holding `[10, 20)`, `get_frame 15` resolves to block B's local record 5, the
15th-originally-added frame. -/
theorem get_frame_first_closed :
    (∀ (blocks : List WaveBlock) (index : Nat),
        get_frame blocks index = get_frame_closed blocks index) ∧
      get_frame [blockA, blockB] 15 = .ok [2, 5] := by
  constructor
  · intro blocks index
    induction blocks with
    | nil => rfl
    | cons c rest ih =>
        simp only [get_frame, get_frame_closed]
        by_cases h1 : c.fidx_start > index
        · rw [if_pos h1, if_neg (by omega), ih]
        · rw [if_neg h1]
          by_cases h2 : c.fidx_end < index
          · rw [if_pos h2, if_neg (by omega), ih]
          · rw [if_neg h2, if_pos ⟨by omega, by omega⟩]
  · rfl

/-! ## Chunk dispatch in `WIFF.open` (C10)

`WIFF.open` (wiff.py lines 47-84) walks the discovered chunks: a `WIFFINFO`
chunk is wrapped and registered, raising `NotImplementedError` if an `INFO`
entry already exists; a `WIFFWAVE` chunk is wrapped and set up; a `WIFFANNO`
chunk executes `wa = WIFFANNO(self, f, c)` (line 78) — but `self` is not a
bound name inside the classmethod (the object is `w`), so the statement
raises `NameError`; any other magic raises `TypeError`. -/

/-- The magic tag of a discovered chunk, as compared by `WIFF.open`. -/
inductive ChunkMagic where
  | info
  | wave
  | anno
  | other
  deriving DecidableEq, Repr

/-- The chunk-dispatch loop of `WIFF.open` (wiff.py lines 64-82), carrying
whether an `INFO` entry has been registered.  The `WIFFWAVE` and `WIFFINFO`
branches complete normally on a well-formed file; the `WIFFANNO` branch
evaluates the undefined name `self` and raises `NameError`. -/
def openDispatch (seenInfo : Bool) : List ChunkMagic → Except PyErr Bool
  | [] => .ok seenInfo
  | m :: rest =>
      match m with
      | .info => if seenInfo then .error .notImplError else openDispatch true rest
      | .wave => openDispatch seenInfo rest
      | .anno => .error .nameError
      | .other => .error .typeError

/-- Embeds `WIFF.open` over the magic tags of a file's chunk list. -/
def WIFF_open (chunks : List ChunkMagic) : Except PyErr Bool :=
  openDispatch false chunks

theorem openDispatch_anno_nameerror (chunks : List ChunkMagic) :
    ∀ seenInfo : Bool, (∀ m ∈ chunks, m ≠ .other) →
      (seenInfo = true → chunks.count .info = 0) →
      chunks.count .info ≤ 1 → .anno ∈ chunks →
      openDispatch seenInfo chunks = .error .nameError := by
  induction chunks with
  | nil =>
      intro seenInfo _ _ _ hanno
      exact absurd hanno (List.not_mem_nil _)
  | cons m rest ih =>
      intro seenInfo hvalid hseen hcount hanno
      match m with
      | .info =>
          have hfalse : seenInfo = false := by
            cases seenInfo with
            | false => rfl
            | true =>
                have := hseen rfl
                rw [List.count_cons_self] at this
                omega
          subst hfalse
          show openDispatch true rest = .error .nameError
          refine ih true (fun x hx => hvalid x (List.mem_cons_of_mem _ hx)) ?_ ?_ ?_
          · intro _
            have := hcount
            rw [List.count_cons_self] at this
            omega
          · have := hcount
            rw [List.count_cons_self] at this
            omega
          · rcases List.mem_cons.mp hanno with h | h
            · exact absurd h.symm (by decide)
            · exact h
      | .wave =>
          show openDispatch seenInfo rest = .error .nameError
          refine ih seenInfo (fun x hx => hvalid x (List.mem_cons_of_mem _ hx)) ?_ ?_ ?_
          · intro hs
            have := hseen hs
            rwa [List.count_cons_of_ne (by decide)] at this
          · have := hcount
            rwa [List.count_cons_of_ne (by decide)] at this
          · rcases List.mem_cons.mp hanno with h | h
            · exact absurd h.symm (by decide)
            · exact h
      | .anno => rfl
      | .other => exact absurd rfl (hvalid .other (List.mem_cons_self ..))

/-- C10: for every well-formed chunk list (every magic recognized, at most
one `WIFFINFO`) that contains a `WIFFANNO` chunk, `WIFF.open` fails with
`NameError` — the classmethod passes the undefined name `self` to
`WIFFANNO`, so a recording holding an annotation chunk can never be
reopened. -/
theorem open_anno_fails (chunks : List ChunkMagic)
    (hvalid : ∀ m ∈ chunks, m ≠ .other)
    (hcount : chunks.count .info ≤ 1)
    (hanno : .anno ∈ chunks) :
    WIFF_open chunks = .error .nameError :=
  openDispatch_anno_nameerror chunks false hvalid (by simp) hcount hanno

/-- Witness for C10: a file holding its `WIFFINFO` chunk followed by a
`WIFFANNO` chunk fails to open with `NameError`. -/
theorem open_anno_fails_witness :
    WIFF_open [.info, .anno] = .error .nameError :=
  open_anno_fails [.info, .anno] (by decide) (by decide) (by decide)

/-! ## Recording state: file table, wave block, annotation block (C4, C8, C9)

The pieces of mutable state touched by the append operations:

* the INFO chunk's recording-wide counters `num_frames` / `num_annotations`
  and its file table (wiffinfo.py),
* the current WIFFWAVE chunk (wiffwave.py): backing-file name, chunk size,
  active channels' bit depths (resolved through the presence bitmap), frame
  bounds and the record array,
* the current WIFFANNO chunk header (wiffanno.py / `annos_struct`).

File names are modelled as numeric identifiers. -/

/-- One entry of the INFO chunk's file table (`file_struct`). -/
structure FileEntry where
  name : Nat
  fidx_start : Nat
  fidx_end : Nat
  aidx_start : Nat
  aidx_end : Nat
  deriving DecidableEq, Repr

/-- The current WIFFWAVE chunk state. -/
structure WaveSt where
  fwName : Nat
  chunkSize : Nat
  chanBits : List Nat
  fidx_start : Nat
  fidx_end : Nat
  records : Nat → List Nat

/-- The `annos_struct` header fields of the current WIFFANNO chunk. -/
structure AnnoSt where
  fwName : Nat
  aidx_start : Nat
  aidx_end : Nat
  fidx_first : Nat
  fidx_last : Nat
  num_annotations : Nat
  deriving DecidableEq, Repr

/-- The type-specific tail of an annotation record (`ann_C_struct`,
`ann_M_struct`, `ann_D_struct`). -/
inductive AnnPayload where
  | commentPay (idx_comment_start idx_comment_end : Nat) (text : List Nat)
  | markerPay (code : Nat)
  | markerValuePay (code : Nat) (value : Int)
  deriving DecidableEq, Repr

/-- One annotation record as written by `WIFFANNO.add_annotation`
(wiffanno.py lines 138-155). -/
structure AnnRecord where
  typ : Char
  fidx_start : Nat
  fidx_end : Nat
  payload : AnnPayload
  deriving DecidableEq, Repr

/-- The recording state seen by the append operations. -/
structure RecState where
  num_frames : Nat
  num_annotations : Nat
  files : List FileEntry
  wave : WaveSt
  anno : AnnoSt
  annRecords : List AnnRecord

/-- Embeds `WIFFINFO.get_file_by_name` (wiffinfo.py lines 221-227): first file
entry with the given name. -/
def findFile : List FileEntry → Nat → Option FileEntry
  | [], _ => none
  | f :: rest, fname => if f.name = fname then some f else findFile rest fname

/-- The file-table update performed by the `WIFFWAVE.fidx_start` setter
(wiffwave.py lines 168-183): on the first entry with matching name, lower
`fidx_start` only if the new value is smaller; `none` when no entry matches
(the setter raises `IndexError`). -/
def updateFileStart : List FileEntry → Nat → Nat → Option (List FileEntry)
  | [], _, _ => none
  | f :: rest, fname, v =>
      if f.name = fname then
        some ((if v < f.fidx_start then { f with fidx_start := v } else f) :: rest)
      else
        (updateFileStart rest fname v).map (f :: ·)

/-- The file-table update performed by the `WIFFWAVE.fidx_end` setter
(wiffwave.py lines 185-198): set `fidx_end` on the first entry with matching
name. -/
def updateFileEnd : List FileEntry → Nat → Nat → Option (List FileEntry)
  | [], _, _ => none
  | f :: rest, fname, v =>
      if f.name = fname then
        some ({ f with fidx_end := v } :: rest)
      else
        (updateFileEnd rest fname v).map (f :: ·)

/-- The file-stat writes at the end of `WIFFANNO.add_annotation` (wiffanno.py
lines 179-181): `f.aidx_end`, `f.fidx_start`, `f.fidx_end` on the entry
returned by `get_file_by_name` (the first with matching name). -/
def setFileAnnoStats : List FileEntry → Nat → Nat → Nat → Nat → List FileEntry
  | [], _, _, _, _ => []
  | f :: rest, fname, aEnd, fStart, fEnd =>
      if f.name = fname then
        { f with aidx_end := aEnd, fidx_start := fStart, fidx_end := fEnd } :: rest
      else
        f :: setFileAnnoStats rest fname aEnd fStart fEnd

/-- Embeds `WIFFWAVE.frame_size` (wiffwave.py lines 229-236): bit-expanded channel
sizes summed and divided by 8. -/
def frame_size_of (chanBits : List Nat) : Nat :=
  (chanBits.map (fun b => b + b % 8)).sum / 8

/-- Embeds `WIFFWAVE.frame_space` (wiffwave.py lines 238-257): chunk size minus the
24-byte chunk header minus the 48-byte wave header (`wave_struct.lenplan
(0, 0)`), divided by the frame size. -/
def frame_space_of (w : WaveSt) : Nat :=
  (w.chunkSize - 24 - 48) / frame_size_of w.chanBits

/-- Embeds `WIFFWAVE.frame_space_available` (wiffwave.py lines 292-298):
`frame_space - self.fidx.len`.  `bstruct.interval` is external; modelled
from the spec: `frame_space_available = frame_space - (fidx_end -
fidx_start)`. -/
def frame_space_available (w : WaveSt) : Nat :=
  frame_space_of w - (w.fidx_end - w.fidx_start)

/-- The record writes and conditional `fidx_start` update of
`WIFFWAVE.add_frames` on the wave header (wiffwave.py lines 338-359):
records land at slots `delta + i` with `delta = fidx_end - fidx_start` read
before any update, and `fidx_start` is set to the frame number only for the
recording's first frames. -/
def addFramesWave (w : WaveSt) (frames : List (List (List Nat))) (frame_num : Nat) :
    WaveSt :=
  let delta := w.fidx_end - w.fidx_start
  let wave1 := { w with records := (fun k =>
    if delta ≤ k ∧ k < delta + frames.length then (frames.getD (k - delta) []).flatten
    else w.records k) }
  if frame_num = 0 then { wave1 with fidx_start := frame_num } else wave1

/-- Embeds `WIFFWAVE.add_frames` (wiffwave.py lines 308-365).  The insufficient-
space branch executes `raise NeedResizeException(...)`, but wiffwave.py
never imports `NeedResizeException`, so the statement itself raises
`NameError`.  The validation loops reject a frame with the wrong number of
samples, or a sample whose byte length disagrees with the bit-expanded
channel size.  After the writes, the `fidx_start` setter runs only for the
recording's first frames, the `fidx_end` setter always, and finally the
recording-wide `num_frames` advances. -/
def add_frames (st : RecState) (frames : List (List (List Nat))) : Except PyErr RecState :=
  if frame_space_available st.wave < frames.length then
    .error .nameError
  else if ¬ (frames.all fun f => f.length == st.wave.chanBits.length) then
    .error .valueError
  else if ¬ (frames.all fun samps =>
      (List.zip (st.wave.chanBits.map fun b => b + b % 8) samps).all
        fun p => p.1 == p.2.length * 8) then
    .error .valueError
  else
    match (if st.num_frames = 0 then updateFileStart st.files st.wave.fwName st.num_frames
      else some st.files) with
    | none => .error .indexError
    | some files1 =>
        match updateFileEnd files1 st.wave.fwName (st.num_frames + frames.length) with
        | none => .error .indexError
        | some files2 =>
            .ok { st with
              num_frames := st.num_frames + frames.length
              files := files2
              wave := { addFramesWave st.wave frames st.num_frames with
                fidx_end := st.num_frames + frames.length } }

/-- Embeds `WIFF.add_frames` (wiff.py lines 519-523): a plain delegation to the
current segment's `add_frames`; nothing is caught on the way out. -/
def WIFF_add_frames (st : RecState) (frames : List (List (List Nat))) :
    Except PyErr RecState :=
  add_frames st frames

/-- A `marker` argument to `WIFFANNO.add_annotation`: either a string (its
ASCII byte values) or an integer passed through unchanged. -/
inductive MarkerParam where
  | str (s : List Nat)
  | num (n : Nat)
  deriving DecidableEq, Repr

/-- The keyword arguments accepted by `WIFFANNO.add_annotation`. -/
structure AnnParms where
  comment : Option (List Nat)
  marker : Option MarkerParam
  value : Option Int
  deriving DecidableEq, Repr

/-- The per-type presence validation at the top of
`WIFFANNO.add_annotation` (wiffanno.py lines 103-112): `C` needs `comment`,
`M` needs `marker`, `D` needs `marker` and `value`; any other type is
rejected with `KeyError`. -/
def checkAnnParms (typ : Char) (parms : AnnParms) : Except PyErr Unit :=
  if typ = 'C' then
    if parms.comment = none then .error .valueError else .ok ()
  else if typ = 'M' then
    if parms.marker = none then .error .valueError else .ok ()
  else if typ = 'D' then
    if parms.marker = none then .error .valueError
    else if parms.value = none then .error .valueError
    else .ok ()
  else
    .error .keyError

/-- Embeds `ann_struct.lenplan` (structs.py lines 266-278) for the validated types:
21 bytes plus the comment for `C`, 21 for `M`, 29 for `D`. -/
def ann_lenplan (typ : Char) (parms : AnnParms) : Nat :=
  if typ = 'C' then 21 + (parms.comment.getD []).length
  else if typ = 'D' then 29
  else 21

/-- The string-marker conversion of wiffanno.py lines 120-121:
`struct.unpack("<I", parms['marker'].encode('ascii'))[0]`.  `encode('ascii')`
fails on a byte value of 128 or more (`UnicodeEncodeError`); `<I` requires
exactly 4 bytes (`struct.error`); the packed value is the little-endian
32-bit read of the 4 characters. -/
def packMarker : MarkerParam → Except PyErr Nat
  | .num n => .ok n
  | .str s =>
      if ∀ b ∈ s, b < 128 then
        if s.length = 4 then .ok (fromLEBytes s) else .error .structError
      else
        .error .unicodeEncodeError

/-- Apply the string-marker conversion when a marker argument is present and
is a string (wiffanno.py line 120). -/
def convMarker : Option MarkerParam → Except PyErr (Option Nat)
  | none => .ok none
  | some m => (packMarker m).map some

/-- The annotation-header update of `WIFFANNO.add_annotation` (wiffanno.py
lines 127-132 and 160-175): on the first annotation the header is first
initialized to the annotation's own frame range; then `fidx_first`/
`fidx_last` track the running min/max of referenced frames, `aidx_end`
becomes `ann_no + 1` (after a transient `aidx_start + ann_no` write it
overwrites), and `num_annotations` advances. -/
def annoAfterAdd (a : AnnoSt) (fidx : Nat × Nat) : AnnoSt :=
  let anno1 :=
    if a.num_annotations = 0 then
      { a with
        aidx_start := 0
        aidx_end := 0
        fidx_first := fidx.1
        fidx_last := fidx.2 }
    else a
  { anno1 with
    aidx_start := if a.num_annotations = 0 then a.num_annotations else anno1.aidx_start
    aidx_end := a.num_annotations + 1
    fidx_first := min anno1.fidx_first fidx.1
    fidx_last := max anno1.fidx_last fidx.2
    num_annotations := a.num_annotations + 1 }

/-- The type-specific record tail written by lines 143-155 of wiffanno.py:
a `C` record stores the comment with its relative offsets
(`aoff = ann_C_struct.lenplan("") = 21`), a `D` record the converted marker
and the value, an `M` record the converted marker. -/
def annPayloadOf (typ : Char) (parms : AnnParms) (markerVal : Option Nat) : AnnPayload :=
  if typ = 'C' then
    .commentPay 21 (21 + (parms.comment.getD []).length) (parms.comment.getD [])
  else if typ = 'D' then
    .markerValuePay (markerVal.getD 0) (parms.value.getD 0)
  else
    .markerPay (markerVal.getD 0)

/-- Embeds `WIFFANNO.add_annotation` (wiffanno.py lines 97-181): validate the
per-type arguments, convert a string marker, look up the owning file entry
(`get_file_by_name`, raising `ValueError` when absent), then initialize the
header on the first annotation, append the record, and push the new bounds
to the file table and the recording-wide counter.  The jump-table insert
(`self._s.annotations.add(ln, ...)`, line 135, with
`ln = ann_struct.lenplan(typ, ...)`) lives in the external `bstruct`
library; modelled from the spec: the VariableRecordList append grows the
chunk by a page when needed and then succeeds.  Note lines 179-181
overwrite the file entry's `fidx_start`/`fidx_end` with the annotation
block's referenced-frame bounds `fidx_first`/`fidx_last`. -/
def addAnnotationOp (st : RecState) (typ : Char) (fidx : Nat × Nat) (parms : AnnParms) :
    Except PyErr RecState :=
  match checkAnnParms typ parms with
  | .error e => .error e
  | .ok _ =>
      match convMarker parms.marker with
      | .error e => .error e
      | .ok markerVal =>
          match findFile st.files st.anno.fwName with
          | none => .error .valueError
          | some _ =>
              .ok { st with
                num_annotations := st.num_annotations + 1
                anno := annoAfterAdd st.anno fidx
                files := setFileAnnoStats st.files st.anno.fwName
                  (annoAfterAdd st.anno fidx).aidx_end
                  (annoAfterAdd st.anno fidx).fidx_first
                  (annoAfterAdd st.anno fidx).fidx_last
                annRecords := st.annRecords ++
                  [⟨typ, fidx.1, fidx.2, annPayloadOf typ parms markerVal⟩] }

/-! ## Demonstration states used by the counterexamples and witnesses -/

/-- A fresh file-table entry for backing file `0`. -/
def cexFile : FileEntry := ⟨0, 0, 0, 0, 0⟩

/-- A fresh one-page WIFFWAVE chunk in file `0` with a single 16-bit
channel (frame size 2 bytes, 2012 frame slots). -/
def cexWave : WaveSt := ⟨0, 4096, [16], 0, 0, fun _ => []⟩

/-- A fresh WIFFANNO header in file `0`. -/
def cexAnno : AnnoSt := ⟨0, 0, 0, 0, 0, 0⟩

/-- A fresh recording: one backing file, no frames, no annotations. -/
def cexState : RecState := ⟨0, 0, [cexFile], cexWave, cexAnno, []⟩

/-- The same wave chunk filled to capacity (2012 of 2012 slots used). -/
def cexWaveFull : WaveSt := ⟨0, 4096, [16], 0, 2012, fun _ => []⟩

/-- The file entry after those 2012 frames. -/
def cexFileFull : FileEntry := ⟨0, 0, 2012, 0, 0⟩

/-- A recording whose current wave chunk has no frame slot left. -/
def cexStateFull : RecState := ⟨2012, 0, [cexFileFull], cexWaveFull, cexAnno, []⟩

/-! ## C9: per-type validation in `add_annotation` -/

/-- C9: `add_annotation` validates its arguments per type before any write:
a Comment needs `comment`, a Marker needs `marker`, a MarkerWithValue needs
`marker` and `value`, any unrecognized type is rejected with `KeyError`; a
string marker is encoded as ASCII and unpacked as a little-endian 32-bit
value, rejecting non-ASCII characters and any length other than 4. -/
theorem add_annotation_validation :
    (∀ (st : RecState) (fidx : Nat × Nat) (m : Option MarkerParam) (v : Option Int),
        addAnnotationOp st 'C' fidx ⟨none, m, v⟩ = .error .valueError) ∧
    (∀ (st : RecState) (fidx : Nat × Nat) (c : Option (List Nat)) (v : Option Int),
        addAnnotationOp st 'M' fidx ⟨c, none, v⟩ = .error .valueError) ∧
    (∀ (st : RecState) (fidx : Nat × Nat) (c : Option (List Nat)) (v : Option Int),
        addAnnotationOp st 'D' fidx ⟨c, none, v⟩ = .error .valueError) ∧
    (∀ (st : RecState) (fidx : Nat × Nat) (c : Option (List Nat)) (m : MarkerParam),
        addAnnotationOp st 'D' fidx ⟨c, some m, none⟩ = .error .valueError) ∧
    (∀ (st : RecState) (typ : Char) (fidx : Nat × Nat) (parms : AnnParms),
        typ ≠ 'C' → typ ≠ 'M' → typ ≠ 'D' →
        addAnnotationOp st typ fidx parms = .error .keyError) ∧
    (∀ s : List Nat, (∀ b ∈ s, b < 128) → s.length = 4 →
        packMarker (.str s) = .ok (fromLEBytes s)) ∧
    (∀ s : List Nat, (∀ b ∈ s, b < 128) → s.length ≠ 4 →
        packMarker (.str s) = .error .structError) ∧
    (∀ s : List Nat, ¬(∀ b ∈ s, b < 128) →
        packMarker (.str s) = .error .unicodeEncodeError) := by
  refine ⟨fun st fidx m v => rfl, fun st fidx c v => rfl, fun st fidx c v => rfl,
    fun st fidx c m => rfl, ?_, ?_, ?_, ?_⟩
  · intro st typ fidx parms h1 h2 h3
    simp [addAnnotationOp, checkAnnParms, h1, h2, h3]
  · intro s hascii h4
    simp only [packMarker]
    rw [if_pos hascii, if_pos h4]
  · intro s hascii h4
    simp only [packMarker]
    rw [if_pos hascii, if_neg h4]
  · intro s hascii
    simp only [packMarker]
    rw [if_neg hascii]

/-- Witness for C9: an unknown type `'X'` is rejected; the 4-character code
`STAT` packs to the little-endian value 1413567571; a 3-character code and a
non-ASCII code are rejected. -/
theorem add_annotation_validation_witness :
    addAnnotationOp cexState 'X' (1, 2) ⟨none, none, none⟩ = .error .keyError ∧
      packMarker (.str [83, 84, 65, 84]) = .ok 1413567571 ∧
      packMarker (.str [83, 84, 65]) = .error .structError ∧
      packMarker (.str [200, 84, 65, 84]) = .error .unicodeEncodeError := by
  refine ⟨add_annotation_validation.2.2.2.2.1 cexState 'X' (1, 2) ⟨none, none, none⟩
      (by decide) (by decide) (by decide), ?_, ?_, ?_⟩
  · rw [add_annotation_validation.2.2.2.2.2.1 [83, 84, 65, 84] (by decide) (by decide)]
    rfl
  · exact add_annotation_validation.2.2.2.2.2.2.1 [83, 84, 65] (by decide) (by decide)
  · exact add_annotation_validation.2.2.2.2.2.2.2 [200, 84, 65, 84] (by decide)

/-! ## C8: FileEntry bookkeeping across appends -/

theorem findFile_updateFileStart {files files' : List FileEntry} {fname v : Nat}
    {f : FileEntry} (hu : updateFileStart files fname v = some files')
    (hf : findFile files fname = some f) :
    findFile files' fname =
      some (if v < f.fidx_start then { f with fidx_start := v } else f) := by
  induction files generalizing files' with
  | nil => simp [updateFileStart] at hu
  | cons g rest ih =>
      by_cases hg : g.name = fname
      · simp only [updateFileStart, if_pos hg] at hu
        simp only [findFile, if_pos hg, Option.some_inj] at hf
        injection hu with hu
        subst hu
        subst hf
        by_cases hv : v < g.fidx_start
        · rw [if_pos hv]
          simp [findFile, hg]
        · rw [if_neg hv]
          simp [findFile, hg]
      · simp only [updateFileStart, if_neg hg] at hu
        simp only [findFile, if_neg hg] at hf
        obtain ⟨rest', hrest, hcons⟩ := Option.map_eq_some'.mp hu
        subst hcons
        simp only [findFile, if_neg hg]
        exact ih hrest hf

theorem findFile_updateFileEnd {files files' : List FileEntry} {fname v : Nat}
    {f : FileEntry} (hu : updateFileEnd files fname v = some files')
    (hf : findFile files fname = some f) :
    findFile files' fname = some { f with fidx_end := v } := by
  induction files generalizing files' with
  | nil => simp [updateFileEnd] at hu
  | cons g rest ih =>
      by_cases hg : g.name = fname
      · simp only [updateFileEnd, if_pos hg] at hu
        simp only [findFile, if_pos hg, Option.some_inj] at hf
        injection hu with hu
        subst hu
        subst hf
        simp [findFile, hg]
      · simp only [updateFileEnd, if_neg hg] at hu
        simp only [findFile, if_neg hg] at hf
        obtain ⟨rest', hrest, hcons⟩ := Option.map_eq_some'.mp hu
        subst hcons
        simp only [findFile, if_neg hg]
        exact ih hrest hf

theorem findFile_setFileAnnoStats {files : List FileEntry} {fname : Nat}
    {f : FileEntry} (hf : findFile files fname = some f) (aEnd fStart fEnd : Nat) :
    findFile (setFileAnnoStats files fname aEnd fStart fEnd) fname =
      some { f with aidx_end := aEnd, fidx_start := fStart, fidx_end := fEnd } := by
  induction files with
  | nil => simp [findFile] at hf
  | cons g rest ih =>
      by_cases hg : g.name = fname
      · simp only [findFile, if_pos hg, Option.some_inj] at hf
        subst hf
        simp [setFileAnnoStats, findFile, hg]
      · simp only [findFile, if_neg hg] at hf
        simp only [setFileAnnoStats, if_neg hg, findFile]
        exact ih hf

/-- Step 1 of the C8 counterexample: append 5 frames (one 16-bit channel,
each sample 2 bytes) to the fresh recording. -/
def cexStep1 : Except PyErr RecState :=
  add_frames cexState (List.replicate 5 [[0, 0]])

/-- Step 2: add the first annotation, a Marker over frames `(1, 2)`. -/
def cexStep2 : Except PyErr RecState :=
  exSeq cexStep1 fun st1 => addAnnotationOp st1 'M' (1, 2) ⟨none, some (.num 7), none⟩

/-- C8 counterexample: 5 frames bring the file entry's `fidx_end` to 5, but
the following `add_annotation` overwrites it with the annotation block's
`fidx_last = 2` — the field decreases across an append routed to the file,
so it is neither monotonically non-decreasing nor a description of the
frame range physically stored in the file. -/
theorem fileentry_fidx_end_decreases :
    (cexStep1.toOption.map fun st => st.files.map FileEntry.fidx_end) = some [5] ∧
      (cexStep2.toOption.map fun st => st.files.map FileEntry.fidx_end) = some [2] ∧
      ¬(5 : Nat) ≤ 2 := by
  decide

/-- C8 amended: across `add_frames` the owning FileEntry is monotone — in a
state whose file entry is consistent with the global counters, `fidx_start`
and `fidx_end` do not decrease and the annotation range is untouched; across
`add_annotation`, `aidx_start` is unchanged and `aidx_end` advances, but
`fidx_start` and `fidx_end` are overwritten with the annotation block's
referenced-frame bounds `fidx_first`/`fidx_last` (which the counterexample
shows can decrease them). -/
theorem fileentry_bounds_after_append :
    (∀ (st : RecState) (frames : List (List (List Nat))) (st' : RecState) (f : FileEntry),
        add_frames st frames = .ok st' →
        findFile st.files st.wave.fwName = some f →
        f.fidx_end ≤ st.num_frames →
        (st.num_frames = 0 → f.fidx_start = 0) →
        ∃ f', findFile st'.files st.wave.fwName = some f' ∧
          f.fidx_start ≤ f'.fidx_start ∧ f.fidx_end ≤ f'.fidx_end ∧
          f'.aidx_start = f.aidx_start ∧ f'.aidx_end = f.aidx_end) ∧
    (∀ (st : RecState) (typ : Char) (fidx : Nat × Nat) (parms : AnnParms)
        (st' : RecState) (f : FileEntry),
        addAnnotationOp st typ fidx parms = .ok st' →
        findFile st.files st.anno.fwName = some f →
        f.aidx_end ≤ st.anno.num_annotations →
        ∃ f', findFile st'.files st.anno.fwName = some f' ∧
          f'.aidx_start = f.aidx_start ∧ f.aidx_end ≤ f'.aidx_end ∧
          f'.fidx_start = st'.anno.fidx_first ∧ f'.fidx_end = st'.anno.fidx_last) := by
  constructor
  · intro st frames st' f h hf hfe hfs0
    unfold add_frames at h
    split at h
    · exact absurd h (by simp)
    · split at h
      · exact absurd h (by simp)
      · split at h
        · exact absurd h (by simp)
        · split at h
          · exact absurd h (by simp)
          · rename_i files1 heq1
            split at h
            · exact absurd h (by simp)
            · rename_i files2 heq2
              injection h with h
              subst h
              split at heq1
              · rename_i hz
                have hstart := findFile_updateFileStart heq1 hf
                have hfs : f.fidx_start = 0 := hfs0 hz
                rw [if_neg (by omega)] at hstart
                have hend := findFile_updateFileEnd heq2 hstart
                exact ⟨_, hend, by simp, by simp; omega, rfl, rfl⟩
              · injection heq1 with heq1
                subst heq1
                have hend := findFile_updateFileEnd heq2 hf
                exact ⟨_, hend, by simp, by simp; omega, rfl, rfl⟩
  · intro st typ fidx parms st' f h hf hae
    unfold addAnnotationOp at h
    split at h
    · exact absurd h (by simp)
    · split at h
      · exact absurd h (by simp)
      · split at h
        · exact absurd h (by simp)
        · injection h with h
          subst h
          have hset := findFile_setFileAnnoStats hf
          exact ⟨_, hset _ _ _, rfl, by simp [annoAfterAdd]; omega, rfl, rfl⟩

/-- Witness for the amended C8 theorem: one frame appended to the fresh
recording advances the file entry's `fidx_end` without decreasing anything,
and a first annotation advances `aidx_end`. -/
theorem fileentry_bounds_after_append_witness :
    (∃ st' f', add_frames cexState [[[0, 0]]] = .ok st' ∧
      findFile st'.files cexState.wave.fwName = some f' ∧
      cexFile.fidx_start ≤ f'.fidx_start ∧ cexFile.fidx_end ≤ f'.fidx_end ∧
      f'.aidx_start = cexFile.aidx_start ∧ f'.aidx_end = cexFile.aidx_end) ∧
    (∃ st' f', addAnnotationOp cexState 'M' (1, 2) ⟨none, some (.num 7), none⟩ = .ok st' ∧
      findFile st'.files cexState.anno.fwName = some f' ∧
      f'.aidx_start = cexFile.aidx_start ∧ cexFile.aidx_end ≤ f'.aidx_end ∧
      f'.fidx_start = st'.anno.fidx_first ∧ f'.fidx_end = st'.anno.fidx_last) := by
  constructor
  · obtain ⟨f', h1, h2, h3, h4, h5⟩ :=
      fileentry_bounds_after_append.1 cexState [[[0, 0]]] _ cexFile rfl rfl
        (by decide) (by decide)
    exact ⟨_, f', rfl, h1, h2, h3, h4, h5⟩
  · obtain ⟨f', h1, h2, h3, h4, h5⟩ :=
      fileentry_bounds_after_append.2 cexState 'M' (1, 2) ⟨none, some (.num 7), none⟩
        _ cexFile rfl rfl (by decide)
    exact ⟨_, f', rfl, h1, h2, h3, h4, h5⟩

/-! ## C4: insufficient space on the append paths

`WIFF.add_frames` (wiff.py lines 519-523) delegates straight to the current
segment's `add_frames`, which raises instead of growing when the frame space
is insufficient.  `WIFFINFO.add_file` (wiffinfo.py lines 230-268) does
decide to grow the chunk by one page when the new entry does not fit — but
the growth call `WIFF_chunk.ResizeChunk(self.chunk, cur_size + 4096)` names
`WIFF_chunk`, which wiffinfo.py never imports, so that branch raises
`NameError` as well. -/

/-- The slice of WIFFINFO state read and written by `add_file`. -/
structure InfoSt where
  chunkSize : Nat
  index_file_end : Nat
  num_files : Nat
  files : List FileEntry
  deriving DecidableEq, Repr

/-- Embeds `file_struct.lenplan` (structs.py lines 86-98): 37 fixed bytes plus the
name. -/
def file_lenplan (fnameLen : Nat) : Nat :=
  37 + fnameLen

/-- Embeds `WIFFINFO.add_file` (wiffinfo.py lines 230-268) for a file name of
`fnameLen` bytes.  When `cur_end + ln + 4 > cur_size` the code calls
`WIFF_chunk.ResizeChunk`, an unimported name, raising `NameError`.
Otherwise the jump-table append (`self._s.files.add(ln, start=12, page=12)`,
external `bstruct`) is modelled from the spec: the new entry is packed right
after the previous record-list end and the file count advances. -/
def add_file (info : InfoSt) (fname fnameLen fidx_start fidx_end aidx_start aidx_end : Nat) :
    Except PyErr InfoSt :=
  if info.index_file_end + file_lenplan fnameLen + 4 > info.chunkSize then
    .error .nameError
  else
    .ok { info with
      index_file_end := info.index_file_end + file_lenplan fnameLen
      num_files := info.num_files + 1
      files := info.files ++ [⟨fname, fidx_start, fidx_end, aidx_start, aidx_end⟩] }

/-- C4 counterexample: on a full wave chunk (2012 of 2012 slots used), the
public `WIFF.add_frames` returns an error for an otherwise-valid one-frame
append — the insufficient-space condition is not resolved by growing the
chunk, it escapes to the caller (as `NameError`, since wiffwave.py never
imports the `NeedResizeException` it tries to raise). -/
theorem add_frames_insufficient_escapes :
    WIFF_add_frames cexStateFull [[[0, 0]]] = .error .nameError := by
  rfl

/-- C4 amended: no append path grows a chunk on insufficient space in this
code.  `WIFF.add_frames` propagates an exception whenever
`frame_space_available < len(frames)` (callers must reserve via the
`frame_space` setter first); `WIFFINFO.add_file`'s page-growth branch
itself raises `NameError` for the missing `WIFF_chunk` import, and only
when the entry already fits does `add_file` complete the append. -/
theorem append_insufficient_space_behavior :
    (∀ (st : RecState) (frames : List (List (List Nat))),
        frame_space_available st.wave < frames.length →
        WIFF_add_frames st frames = .error .nameError) ∧
    (∀ (info : InfoSt) (fname fnameLen a b c d : Nat),
        info.index_file_end + file_lenplan fnameLen + 4 > info.chunkSize →
        add_file info fname fnameLen a b c d = .error .nameError) ∧
    (∀ (info : InfoSt) (fname fnameLen a b c d : Nat),
        ¬(info.index_file_end + file_lenplan fnameLen + 4 > info.chunkSize) →
        add_file info fname fnameLen a b c d = .ok { info with
          index_file_end := info.index_file_end + file_lenplan fnameLen
          num_files := info.num_files + 1
          files := info.files ++ [⟨fname, a, b, c, d⟩] }) := by
  refine ⟨?_, ?_, ?_⟩
  · intro st frames hlt
    unfold WIFF_add_frames add_frames
    rw [if_pos hlt]
  · intro info fname fnameLen a b c d hgt
    unfold add_file
    rw [if_pos hgt]
  · intro info fname fnameLen a b c d hle
    unfold add_file
    rw [if_neg hle]

/-- Witness for the amended C4 theorem: the full chunk rejects a one-frame
append; an INFO chunk with no room rejects `add_file` with `NameError`; one
with room appends the entry. -/
theorem append_insufficient_space_behavior_witness :
    WIFF_add_frames cexStateFull [[[0, 0]]] = .error .nameError ∧
      add_file ⟨4096, 4090, 1, [cexFile]⟩ 1 5 0 0 0 0 = .error .nameError ∧
      add_file ⟨4096, 200, 1, [cexFile]⟩ 1 5 0 0 0 0 =
        .ok ⟨4096, 242, 2, [cexFile, ⟨1, 0, 0, 0, 0⟩]⟩ := by
  refine ⟨append_insufficient_space_behavior.1 cexStateFull [[[0, 0]]] (by decide),
    append_insufficient_space_behavior.2.1 ⟨4096, 4090, 1, [cexFile]⟩ 1 5 0 0 0 0
      (by decide), ?_⟩
  rw [append_insufficient_space_behavior.2.2 ⟨4096, 200, 1, [cexFile]⟩ 1 5 0 0 0 0
    (by decide)]
  rfl

/-! ## C6: creating a new recording

`WIFF.new` (wiff.py lines 86-158) initializes the first file and INFO chunk
and then calls (line 152)
`wi.initheader(props['start'], props['end'], props['description'],
props['fs'], 0, 0, props['channels'], props['files'])` — 8 positional
arguments.  `WIFFINFO.initheader` (wiffinfo.py line 37) is
`def initheader(self, start, end, desc, fs, num_frames, num_annotations,
num_metas, channels, files)` — 9 required parameters (`num_metas` was added
with the metadata revision; the call site in wiff.py was not updated, and
the older monolithic version of the package still has the 8-parameter
signature).  Every call therefore raises
`TypeError: initheader() missing 1 required positional argument` before the
header is written, so `WIFF.new` can never succeed. -/

/-- Number of positional arguments `WIFF.new` passes to
`WIFFINFO.initheader` (wiff.py line 152). -/
def WIFF_new_initheader_args : Nat := 8

/-- Number of required parameters of `WIFFINFO.initheader` (wiffinfo.py
line 37). -/
def WIFFINFO_initheader_params : Nat := 9

/-- C6 (code bug): the `initheader` call inside `WIFF.new` supplies fewer
arguments than the method requires, so creating a new recording raises
`TypeError` instead of succeeding. -/
theorem new_initheader_arity_mismatch :
    WIFF_new_initheader_args ≠ WIFFINFO_initheader_params ∧
      WIFF_new_initheader_args < WIFFINFO_initheader_params := by
  decide
